import Mathlib

/-!
Verification of the `pda-directory` uploader against its design document.

The development shallowly embeds the relevant parts of the Rust sources
(`src/uploader/src/merge.rs`, `src/uploader/src/cloudflare.rs`,
`src/uploader/src/main.rs`, `src/uploader/src/types.rs`) as executable Lean
definitions.  Machine integers are modelled as `Nat` with explicit `% 2^w`
where overflow matters; fallible operations return `Option` or `Except`;
filesystem and network effects are modelled by injecting each call's result
through an explicit environment record, and the sequence of outward requests
performed by a function is returned as an explicit trace.
-/

namespace PdaDirectory

/-- A byte value.  Well-formed data keeps it below 256; the alias documents
intent where the Rust type is `u8`. -/
abbrev Byte := Nat

/-- `solana_address::Address`: a 32-byte identifier, modelled as its byte
list; `[u8; 32]` values compare lexicographically, matching the derived
`Ord` used by `sort_by_key`. -/
abbrev Address := List Byte

/-- `PdaSqlite` (src/uploader/src/types.rs): one PDA record, with equality
and ordering for dedup purposes taken on the `pda` field. -/
structure PdaSqlite where
  pda : Address
  seeds : List (List Byte)
  program_id : Address
deriving DecidableEq

/-- The key comparison of `sort_by_key(|entry| entry.pda)` is total. -/
instance : IsTotal PdaSqlite (fun a b => a.pda ≤ b.pda) :=
  ⟨fun a b => le_total a.pda b.pda⟩

/-- The key comparison of `sort_by_key(|entry| entry.pda)` is transitive. -/
instance : IsTrans PdaSqlite (fun a b => a.pda ≤ b.pda) :=
  ⟨fun _ _ _ hab hbc => le_trans hab hbc⟩

/-! ### Seed-storage encoding (src/uploader/src/main.rs, `encode_seeds_for_storage`) -/

/-- `u32::to_le_bytes` applied to `n as u32`: the four little-endian bytes of
`n % 2^32`. -/
def u32ToLeBytes (n : Nat) : List Byte :=
  [n % 256, n / 256 % 256, n / 65536 % 256, n / 16777216 % 256]

/-- `encode_seeds_for_storage` (src/uploader/src/main.rs, lines 275-285): a
little-endian `u32` seed count, then for each seed a little-endian `u32`
length followed by the raw seed bytes. -/
def encode_seeds_for_storage (seeds : List (List Byte)) : List Byte :=
  u32ToLeBytes seeds.length ++ (seeds.map (fun seed => u32ToLeBytes seed.length ++ seed)).flatten

/-! ### Seed-storage decoding (src/uploader/src/merge.rs, `decode_seeds_from_storage`)

Slice accesses are modelled as fallible (`none` models an out-of-bounds
panic), so totality of the decoder is a provable statement rather than an
assumption. -/

/-- `u32::from_le_bytes` of four bytes. -/
def u32OfLeBytes (b0 b1 b2 b3 : Byte) : Nat :=
  b0 + b1 * 256 + b2 * 65536 + b3 * 16777216

/-- A single indexed read `raw[i]`; `none` models the panic on an
out-of-bounds index. -/
def sliceIndex (raw : List Byte) (i : Nat) : Option Byte :=
  raw.get? i

/-- The slice-and-copy `raw[lo..hi].to_vec()`; `none` models the panic on an
invalid range. -/
def sliceRange (raw : List Byte) (lo hi : Nat) : Option (List Byte) :=
  if lo ≤ hi ∧ hi ≤ raw.length then some ((raw.drop lo).take (hi - lo)) else none

/-- The `for _ in 0..num_seeds` loop of `decode_seeds_from_storage`
(src/uploader/src/merge.rs, lines 296-316), with the mutable `cursor` made an
explicit argument and the remaining iteration count driving the recursion. -/
def decodeSeedsLoop (seeds_raw : List Byte) : Nat → Nat → Option (List (List Byte))
  | 0, _ => some []
  | n + 1, cursor =>
    if cursor + 4 > seeds_raw.length then some [] else
    match sliceIndex seeds_raw cursor, sliceIndex seeds_raw (cursor + 1),
        sliceIndex seeds_raw (cursor + 2), sliceIndex seeds_raw (cursor + 3) with
    | some b0, some b1, some b2, some b3 =>
      let seed_len := u32OfLeBytes b0 b1 b2 b3
      if cursor + 4 + seed_len > seeds_raw.length then some [] else
      match sliceRange seeds_raw (cursor + 4) (cursor + 4 + seed_len) with
      | some seed =>
        (decodeSeedsLoop seeds_raw n (cursor + 4 + seed_len)).map (fun rest => seed :: rest)
      | none => none
    | _, _, _, _ => none

/-- `decode_seeds_from_storage` (src/uploader/src/merge.rs, lines 278-319):
read a `u32` seed count, then greedily decode length-prefixed seeds, stopping
early (with the seeds decoded so far) when the remaining data is too short. -/
def decode_seeds_from_storage (seeds_raw : List Byte) : Option (List (List Byte)) :=
  if seeds_raw.length < 4 then some [] else
  match sliceIndex seeds_raw 0, sliceIndex seeds_raw 1,
      sliceIndex seeds_raw 2, sliceIndex seeds_raw 3 with
  | some b0, some b1, some b2, some b3 =>
    decodeSeedsLoop seeds_raw (u32OfLeBytes b0 b1 b2 b3) 4
  | _, _, _, _ => none

/-- Cursor-free restatement of the decode loop, recursing on the byte list
that remains after the cursor; used to reason about `decodeSeedsLoop`. -/
def decodeSeedsLoopS : Nat → List Byte → List (List Byte)
  | 0, _ => []
  | n + 1, rest =>
    match rest with
    | b0 :: b1 :: b2 :: b3 :: tail =>
      if u32OfLeBytes b0 b1 b2 b3 ≤ tail.length then
        tail.take (u32OfLeBytes b0 b1 b2 b3)
          :: decodeSeedsLoopS n (tail.drop (u32OfLeBytes b0 b1 b2 b3))
      else []
    | _ => []

/-- Cursor-free restatement of `decode_seeds_from_storage`. -/
def decodeSeedsS (raw : List Byte) : List (List Byte) :=
  match raw with
  | b0 :: b1 :: b2 :: b3 :: rest => decodeSeedsLoopS (u32OfLeBytes b0 b1 b2 b3) rest
  | _ => []

/-! ### Deduplicating merge (src/uploader/src/merge.rs, `merge`) -/

/-- `entries.sort_by_key(|entry| entry.pda)` (src/uploader/src/merge.rs, line
88): a stable sort by the `pda` key.  Stable sorts of a list agree, so the
structurally recursive insertion sort is an exact model of Rust's stable
`sort_by_key`. -/
def sortByPda (entries : List PdaSqlite) : List PdaSqlite :=
  entries.insertionSort (fun a b => a.pda ≤ b.pda)

/-- Tail of `Vec::dedup_by_key(|entry| entry.pda)`: drop each element whose
key equals the key of the most recently kept element. -/
def dedupByKeyAux (prev : Address) : List PdaSqlite → List PdaSqlite
  | [] => []
  | entry :: rest =>
    if entry.pda = prev then dedupByKeyAux prev rest
    else entry :: dedupByKeyAux entry.pda rest

/-- `entries.dedup_by_key(|entry| entry.pda)` (src/uploader/src/merge.rs, line
91): remove adjacent elements with equal `pda`, keeping the first of each
run. -/
def dedupByPda : List PdaSqlite → List PdaSqlite
  | [] => []
  | entry :: rest => entry :: dedupByKeyAux entry.pda rest

/-- The deduplication phase of `merge` (src/uploader/src/merge.rs, lines
84-97): sort the accumulated entries by `pda`, collapse adjacent duplicates,
then retain only entries whose `pda` is not in the checkpoint set loaded at
the start of the run. -/
def mergeDedup (entries : List PdaSqlite) (dedup_hashset : Finset Address) : List PdaSqlite :=
  (dedupByPda (sortByPda entries)).filter (fun entry => decide (entry.pda ∉ dedup_hashset))

/-! ### Checkpoint load (src/uploader/src/merge.rs, lines 27-40) -/

/-- The state of the checkpoint file when `merge` starts: missing, or present
with some byte contents. -/
inductive CheckpointFile where
  | missing
  | present (contents : List Byte)

/-- The dedup-hashset load step of `merge` (src/uploader/src/merge.rs, lines
27-40).  `bincode::deserialize_from` is abstracted as the parameter `dec`
(`none` models a deserialization failure); `.unwrap_or_default()` turns that
failure into the empty set, and a missing file also yields the empty set.
The `Except` result type mirrors `merge`'s `Result`. -/
def loadDedupHashset (dec : List Byte → Option (Finset Address)) :
    CheckpointFile → Except String (Finset Address)
  | .missing => .ok ∅
  | .present contents => .ok ((dec contents).getD ∅)

/-! ### Checkpoint persistence (src/uploader/src/merge.rs, `save_dedup_hashset`) -/

/-- The `std::io::ErrorKind` values the saver distinguishes. -/
inductive IoErrorKind where
  | alreadyExists
  | notFound
  | permissionDenied
  | otherKind
deriving DecidableEq

/-- An `std::io::Error`: a kind plus its display text. -/
structure IoError where
  kind : IoErrorKind
  msg : String
deriving DecidableEq

/-- Results of each filesystem call made by `save_dedup_hashset`, injected so
the function is a pure value of its environment. -/
structure FsEnv where
  createTemp : Except IoError Unit
  writeSerialize : Except IoError Unit
  flushTemp : Except IoError Unit
  syncTemp : Except IoError Unit
  renameFirst : Except IoError Unit
  removeDest : Except IoError Unit
  renameRetry : Except IoError Unit

/-- Filesystem operations attempted by `save_dedup_hashset`, in order. -/
inductive FsOp where
  | createTempFile
  | writeTempFile
  | flushTempFile
  | syncTempFile
  | renameTempToDest
  | removeDestFile
  | removeTempFile
deriving DecidableEq

/-- `save_dedup_hashset` (src/uploader/src/merge.rs, lines 111-145): write
the serialized set to `<dest>.tmp`, flush and sync it, rename it over the
destination; on an `AlreadyExists` rename failure remove the destination and
rename again; on any other rename failure remove the temp file and return an
error naming the destination path.  Propagated I/O errors carry their own
display text (the `?` operator adds no context).  Returns the result plus the
trace of attempted filesystem operations. -/
def save_dedup_hashset (env : FsEnv) (destPath : String) : Except String Unit × List FsOp :=
  match env.createTemp with
  | .error e => (.error e.msg, [.createTempFile])
  | .ok _ =>
    match env.writeSerialize with
    | .error e => (.error e.msg, [.createTempFile, .writeTempFile])
    | .ok _ =>
      match env.flushTemp with
      | .error e => (.error e.msg, [.createTempFile, .writeTempFile, .flushTempFile])
      | .ok _ =>
        match env.syncTemp with
        | .error e =>
          (.error e.msg, [.createTempFile, .writeTempFile, .flushTempFile, .syncTempFile])
        | .ok _ =>
          match env.renameFirst with
          | .ok _ =>
            (.ok (), [.createTempFile, .writeTempFile, .flushTempFile, .syncTempFile,
              .renameTempToDest])
          | .error err =>
            if err.kind = .alreadyExists then
              match env.removeDest with
              | .error e =>
                (.error e.msg, [.createTempFile, .writeTempFile, .flushTempFile, .syncTempFile,
                  .renameTempToDest, .removeDestFile])
              | .ok _ =>
                match env.renameRetry with
                | .error e =>
                  (.error e.msg, [.createTempFile, .writeTempFile, .flushTempFile, .syncTempFile,
                    .renameTempToDest, .removeDestFile, .renameTempToDest])
                | .ok _ =>
                  (.ok (), [.createTempFile, .writeTempFile, .flushTempFile, .syncTempFile,
                    .renameTempToDest, .removeDestFile, .renameTempToDest])
            else
              (.error ("failed to replace dedup hashset at " ++ destPath ++ ": " ++ err.msg),
                [.createTempFile, .writeTempFile, .flushTempFile, .syncTempFile,
                  .renameTempToDest, .removeTempFile])

/-! ### String helpers used by the protocol client -/

/-- The single-quote character, by code point. -/
def squoteChar : Char := Char.ofNat 39

/-- The single-quote string. -/
def squote : String := String.singleton squoteChar

/-- The double-quote character, by code point. -/
def dquoteChar : Char := Char.ofNat 34

/-- The sixteen uppercase hexadecimal digits. -/
def HEX_DIGITS : List Char := "0123456789ABCDEF".data

/-- One hexadecimal digit, uppercase. -/
def hexNibble (n : Nat) : Char := HEX_DIGITS.getD (n % 16) (Char.ofNat 48)

/-- `format!("{byte:02X}")` for a byte value: two uppercase hex digits. -/
def hexByte (b : Byte) : String :=
  ⟨[hexNibble (b / 16), hexNibble (b % 16)]⟩

/-- `str::to_ascii_lowercase`: lowercase the ASCII uppercase letters only. -/
def asciiLowerChar (c : Char) : Char :=
  if 65 ≤ c.toNat ∧ c.toNat ≤ 90 then Char.ofNat (c.toNat + 32) else c

/-- `str::to_ascii_lowercase` over a whole string. -/
def toAsciiLower (s : String) : String := ⟨s.data.map asciiLowerChar⟩

/-- `str::contains(needle)`: some suffix of `hay` starts with `needle`. -/
def strContains (hay needle : String) : Bool :=
  (List.range (hay.data.length + 1)).any (fun i => needle.data.isPrefixOf (hay.data.drop i))

/-- `str::trim_matches(c)`: strip every leading and trailing occurrence of
`c`. -/
def trimMatches (c : Char) (s : String) : String :=
  ⟨((s.data.dropWhile (fun x => x = c)).reverse.dropWhile (fun x => x = c)).reverse⟩

/-! ### Bulk SQL script builder (src/uploader/src/cloudflare.rs, lines 301-353) -/

/-- `to_blob_literal` (src/uploader/src/cloudflare.rs, lines 340-353): the
empty blob renders as `X` followed by two single quotes; otherwise `X`, a
quote, two uppercase hex digits per byte, and a closing quote. -/
def to_blob_literal (bytes : List Byte) : String :=
  if bytes.isEmpty then "X" ++ squote ++ squote
  else "X" ++ squote ++ String.join (bytes.map hexByte) ++ squote

/-- `u64::to_le_bytes` applied to `n as u64`. -/
def u64ToLeBytes (n : Nat) : List Byte :=
  [n % 256, n / 256 % 256, n / 65536 % 256, n / 16777216 % 256,
    n / 4294967296 % 256, n / 1099511627776 % 256,
    n / 281474976710656 % 256, n / 72057594037927936 % 256]

/-- `bincode::serialize` of a `Vec<Vec<u8>>` under bincode's default
configuration: a little-endian `u64` element count, then for each seed a
little-endian `u64` length followed by the raw bytes.  (Distinct from the
`u32`-prefixed seed-storage encoding.) -/
def bincodeSerializeSeeds (seeds : List (List Byte)) : List Byte :=
  u64ToLeBytes seeds.length ++ (seeds.map (fun seed => u64ToLeBytes seed.length ++ seed)).flatten

/-- One rendered row of `build_insert_script`:
`({pda}, {program}, {seed_count}, {seed})` with the binary fields as blob
literals and the seed list bincode-serialized before embedding. -/
def renderEntry (entry : PdaSqlite) : String :=
  "(" ++ to_blob_literal entry.pda ++ ", " ++ to_blob_literal entry.program_id ++ ", "
    ++ toString entry.seeds.length ++ ", "
    ++ to_blob_literal (bincodeSerializeSeeds entry.seeds) ++ ")"

/-- The row section of one statement: rows separated by `,\n`, the last row
followed by `;\n` (the `index + 1 == chunk.len()` branch of the source). -/
def renderRows : List PdaSqlite → String
  | [] => ""
  | [entry] => renderEntry entry ++ ";\n"
  | entry :: rest => renderEntry entry ++ ",\n" ++ renderRows rest

/-- The fixed statement header pushed once per chunk. -/
def INSERT_HEADER : String :=
  "INSERT OR IGNORE INTO pda_registry (pda, program_id, seed_count, seed_bytes) VALUES\n"

/-- One `INSERT OR IGNORE` statement for one chunk. -/
def renderChunk (chunk : List PdaSqlite) : String :=
  INSERT_HEADER ++ renderRows chunk

/-- Fuel-driven body of `chunksOf`; the fuel starts at the list length, which
always suffices for a positive chunk size. -/
def chunksOfFuel (n : Nat) : Nat → List PdaSqlite → List (List PdaSqlite)
  | 0, _ => []
  | _, [] => []
  | fuel + 1, l => l.take n :: chunksOfFuel n fuel (l.drop n)

/-- `slice::chunks(n)`: split a list into consecutive chunks of size `n`,
the last chunk possibly shorter. -/
def chunksOf (n : Nat) (l : List PdaSqlite) : List (List PdaSqlite) :=
  chunksOfFuel n l.length l

/-- The per-statement chunk size of `build_insert_script`. -/
def CHUNK_SIZE : Nat := 500

/-- `build_insert_script` (src/uploader/src/cloudflare.rs, lines 301-338):
`none` for an empty record list, otherwise the concatenation, in order, of
one rendered statement per chunk of at most 500 records. -/
def build_insert_script (entries : List PdaSqlite) : Option String :=
  if entries.isEmpty then none
  else some (String.join ((chunksOf CHUNK_SIZE entries).map renderChunk))

/-! ### Remote import protocol client (src/uploader/src/cloudflare.rs) -/

/-- `CloudflareApiError`: one error object of the response envelope. -/
structure CfApiError where
  code : Option Nat
  message : String
deriving DecidableEq

/-- `CloudflareResponse<T>`: the JSON envelope
`{success, result | absent, errors}`. -/
structure CfResponse (α : Type) where
  result : Option α
  success : Bool
  errors : List CfApiError
deriving DecidableEq

/-- `ImportStatus`: the import-status object returned by init/ingest/poll. -/
structure ImportStatus where
  success : Bool
  error : Option String
  errors : List String
  messages : List String
  status : Option String
  at_bookmark : Option String
deriving DecidableEq

/-- `InitUploadResult`: the staging descriptor shape of the init response. -/
structure InitUploadResult where
  upload_url : String
  filename : String
deriving DecidableEq

/-- `InitResult`: the untagged union the init response deserializes into. -/
inductive InitResult where
  | upload (r : InitUploadResult)
  | status (s : ImportStatus)
deriving DecidableEq

/-- The distinguishable failure classes of the protocol client, mirroring the
distinct `eyre!` sites of src/uploader/src/cloudflare.rs. -/
inductive D1Error where
  | httpError (context : String)
  | apiError (message : String)
  | missingEtag
  | etagMismatch (expected got : String)
  | importFailed (message : String)
  | timedOut (maxAttempts : Nat)
deriving DecidableEq

/-- `Vec::join(sep)` for strings. -/
def joinSep (sep : String) : List String → String
  | [] => ""
  | [s] => s
  | s :: rest => s ++ sep ++ joinSep sep rest

/-- The text of one envelope error: `"{code}: {msg}"` or bare `msg`. -/
def cfApiErrorText (e : CfApiError) : String :=
  match e.code with
  | some code => toString code ++ ": " ++ e.message
  | none => e.message

/-- `CloudflareResponse::error_message` (src/uploader/src/cloudflare.rs,
lines 375-395), without the trailing Debug-rendered payload (no claim
inspects it and `Debug` formatting has no Lean counterpart): the joined
error list, or the fixed fallback text when the list is empty. -/
def cfErrorMessage (errors : List CfApiError) : String :=
  if (joinSep (", ") (errors.map cfApiErrorText)) = "" then "unknown error"
  else joinSep (", ") (errors.map cfApiErrorText)

/-- The error built by `CloudflareResponse::ensure_success` on
`success=false`. -/
def ensureSuccessErr (errors : List CfApiError) : D1Error :=
  .apiError ("Cloudflare API error: " ++ cfErrorMessage errors)

/-- The error built by `into_result` when `success=true` but `result` is
absent. -/
def missingPayloadErr : D1Error :=
  .apiError ("Cloudflare API response missing result payload")

/-- `import_status_error_message` (src/uploader/src/cloudflare.rs, lines
289-299): the explicit error text, else the joined error list, else the fixed
fallback. -/
def import_status_error_message (status : ImportStatus) : String :=
  match status.error with
  | some err => err
  | none =>
    if status.errors.isEmpty then "unknown error"
    else joinSep (", ") status.errors

/-- The sentinel error text treated as terminal success. -/
def NOT_IMPORTING_SENTINEL : String := "Not currently importing anything."

/-- Decidable equality for `Except`, needed to evaluate protocol results on
concrete inputs. -/
instance {ε α : Type} [DecidableEq ε] [DecidableEq α] : DecidableEq (Except ε α)
  | .ok a, .ok b =>
    if h : a = b then .isTrue (by rw [h])
    else .isFalse (by intro hc; cases hc; exact h rfl)
  | .ok _, .error _ => .isFalse (by intro hc; cases hc)
  | .error _, .ok _ => .isFalse (by intro hc; cases hc)
  | .error a, .error b =>
    if h : a = b then .isTrue (by rw [h])
    else .isFalse (by intro hc; cases hc; exact h rfl)

/-- Verdict of examining one import status inside the polling loop. -/
inductive PollVerdict where
  | finish (r : Except D1Error Unit)
  | continuePolling
deriving DecidableEq

/-- The status examination at the top of `poll_import_until_complete`'s loop
body (src/uploader/src/cloudflare.rs, lines 226-249), in source order: the
sentinel error text first, then a terminal status text (`complete`, or one
containing `fail` or `error` after ASCII lowercasing), then the `success`
flag. -/
def evalImportStatus (status : ImportStatus) : PollVerdict :=
  if status.error = some NOT_IMPORTING_SENTINEL then .finish (.ok ())
  else
    match status.status with
    | some status_text =>
      if toAsciiLower status_text = "complete" then .finish (.ok ())
      else if strContains (toAsciiLower status_text) ("fail")
          || strContains (toAsciiLower status_text) ("error") then
        .finish (.error (.importFailed (import_status_error_message status)))
      else if status.success = false then
        .finish (.error (.importFailed (import_status_error_message status)))
      else .continuePolling
    | none =>
      if status.success = false then
        .finish (.error (.importFailed (import_status_error_message status)))
      else .continuePolling

/-- The polling attempt cap (`MAX_ATTEMPTS`). -/
def MAX_ATTEMPTS : Nat := 300

/-- The fixed delay, in seconds, slept before each poll request
(`sleep(Duration::from_secs(1))`). -/
def POLL_DELAY_SECS : Nat := 1

/-- Outward requests performed by the protocol client, recorded as a trace.
A poll request records the seconds slept immediately before it and the
bookmark it resends. -/
inductive D1Request where
  | initReq (etag : String)
  | stagingPut (body : String)
  | ingestReq (etag : String) (filename : String)
  | pollReq (sleptSecs : Nat) (current_bookmark : Option String)
deriving DecidableEq

/-- The injected results of the poll endpoint: the response to the `n`-th
poll request (`n` counts attempts, starting at 1).  `Except.error` models a
send failure, a non-2xx status, or a body that fails to deserialize. -/
structure PollEnv where
  poll : Nat → Except String (CfResponse ImportStatus)

/-- `poll_import_until_complete`'s loop (src/uploader/src/cloudflare.rs,
lines 214-286), with the `attempts` counter as in the source and an
additional structural fuel argument; starting the fuel at `MAX_ATTEMPTS`
keeps the fuel-exhaustion branch unreachable (proved below). -/
def pollLoopFuel (env : PollEnv) : Nat → ImportStatus → Nat → Except D1Error Unit × List D1Request
  | 0, status, _ =>
    match evalImportStatus status with
    | .finish r => (r, [])
    | .continuePolling => (.error (.timedOut MAX_ATTEMPTS), [])
  | fuel + 1, status, attempts =>
    match evalImportStatus status with
    | .finish r => (r, [])
    | .continuePolling =>
      if attempts + 1 ≥ MAX_ATTEMPTS then (.error (.timedOut MAX_ATTEMPTS), [])
      else
        match env.poll (attempts + 1) with
        | .error context =>
          (.error (.httpError context), [.pollReq POLL_DELAY_SECS status.at_bookmark])
        | .ok resp =>
          if resp.success = false then
            (.error (ensureSuccessErr resp.errors),
              [.pollReq POLL_DELAY_SECS status.at_bookmark])
          else
            match resp.result with
            | none =>
              (.error missingPayloadErr, [.pollReq POLL_DELAY_SECS status.at_bookmark])
            | some status' =>
              let next := pollLoopFuel env fuel status' (attempts + 1)
              (next.1, .pollReq POLL_DELAY_SECS status.at_bookmark :: next.2)

/-- `poll_import_until_complete` (src/uploader/src/cloudflare.rs, lines
203-287): run the loop from the given first status with `attempts = 0`. -/
def poll_import_until_complete (env : PollEnv) (status : ImportStatus) :
    Except D1Error Unit × List D1Request :=
  pollLoopFuel env MAX_ATTEMPTS status 0

/-- The injected outside world for one `upload_to_d1` run: the abstract MD5
hex digest (`format!("{:x}", md5::compute(bytes))`, a deterministic function
of the script text) and the result of each network call.  `stagingResp`'s
`ok` payload is the raw `ETag` header value when present. -/
structure D1Env where
  md5hex : String → String
  initResp : Except String (CfResponse InitResult)
  stagingResp : Except String (Option String)
  ingestResp : Except String (CfResponse ImportStatus)
  poll : Nat → Except String (CfResponse ImportStatus)

/-- `upload_to_d1` (src/uploader/src/cloudflare.rs, lines 74-201): skip empty
input, build the script and its checksum, init; on the staging shape PUT the
script, compare the quote-stripped response ETag with the checksum (a
mismatch aborts before ingest), ingest, then poll; on the status shape skip
straight to polling.  Returns the result and the trace of requests sent. -/
def upload_to_d1 (env : D1Env) (entries : List PdaSqlite) :
    Except D1Error Unit × List D1Request :=
  if entries.isEmpty then (.ok (), [])
  else
    match build_insert_script entries with
    | none => (.ok (), [])
    | some script =>
      let checksum := env.md5hex script
      match env.initResp with
      | .error context => (.error (.httpError context), [.initReq checksum])
      | .ok resp =>
        if resp.success = false then
          (.error (ensureSuccessErr resp.errors), [.initReq checksum])
        else
          match resp.result with
          | none => (.error missingPayloadErr, [.initReq checksum])
          | some (.upload init_result) =>
            match env.stagingResp with
            | .error context =>
              (.error (.httpError context), [.initReq checksum, .stagingPut script])
            | .ok none =>
              (.error .missingEtag, [.initReq checksum, .stagingPut script])
            | .ok (some rawEtag) =>
              if trimMatches dquoteChar rawEtag ≠ checksum then
                (.error (.etagMismatch checksum (trimMatches dquoteChar rawEtag)),
                  [.initReq checksum, .stagingPut script])
              else
                match env.ingestResp with
                | .error context =>
                  (.error (.httpError context),
                    [.initReq checksum, .stagingPut script,
                      .ingestReq checksum init_result.filename])
                | .ok iresp =>
                  if iresp.success = false then
                    (.error (ensureSuccessErr iresp.errors),
                      [.initReq checksum, .stagingPut script,
                        .ingestReq checksum init_result.filename])
                  else
                    match iresp.result with
                    | none =>
                      (.error missingPayloadErr,
                        [.initReq checksum, .stagingPut script,
                          .ingestReq checksum init_result.filename])
                    | some import_status =>
                      let polled := poll_import_until_complete ⟨env.poll⟩ import_status
                      (polled.1,
                        .initReq checksum :: .stagingPut script
                          :: .ingestReq checksum init_result.filename :: polled.2)
          | some (.status import_status) =>
            let polled := poll_import_until_complete ⟨env.poll⟩ import_status
            (polled.1, .initReq checksum :: polled.2)

/-! ### Blue/green orchestrator upload step -/

/-- The orchestrator's per-upload chunk size (1000 records per chunk). -/
def UPLOAD_CHUNK_SIZE : Nat := 1000

/-- Modelled from the spec: the blue/green orchestrator's upload step (spec
§4.6 step 2) is not present under `src/` — `upload_loop` in
src/uploader/src/main.rs is an empty stub — so this follows the spec's words:
the batch is split into fixed-size chunks of 1000 records, and each chunk is
uploaded by its own fully independent `upload_to_d1` invocation (hence its
own checksum and its own init/stage/ingest/poll run), one chunk at a time, in
order. -/
def orchestratorUpload (envs : Nat → D1Env) (batch : List PdaSqlite) :
    List (Except D1Error Unit × List D1Request) :=
  (chunksOf UPLOAD_CHUNK_SIZE batch).mapIdx (fun i chunk => upload_to_d1 (envs i) chunk)

/-! ### Concrete fixtures used to instantiate the theorems -/

/-- A small concrete record. -/
def demoRec : PdaSqlite := ⟨[1], [[7]], [2]⟩

/-- A second concrete record with a different address. -/
def demoRec2 : PdaSqlite := ⟨[3], [], [4]⟩

/-- A concrete checkpoint set containing `demoRec2`'s address. -/
def demoSet : Finset Address := {[3]}

/-- A poll environment whose endpoint is never reached. -/
def demoPollEnv : PollEnv := ⟨fun _ => .error ("unused")⟩

/-- A status carrying the sentinel error text together with `success=false`
and a non-terminal status text. -/
def demoSentinelStatus : ImportStatus :=
  ⟨false, some NOT_IMPORTING_SENTINEL, [], [], some ("importing"), some ("bm")⟩

/-- A non-terminal status: no error text, in-progress status text,
`success=true`. -/
def busyStatus : ImportStatus := ⟨true, none, [], [], some ("importing"), some ("bm")⟩

/-- A poll environment that always answers with `busyStatus`. -/
def busyPollEnv : PollEnv := ⟨fun _ => .ok ⟨some busyStatus, true, []⟩⟩

/-- An upload environment whose staged-upload ETag cannot match the
checksum. -/
def mismatchEnv : D1Env :=
  ⟨fun _ => "d41d8", .ok ⟨some (.upload ⟨"u", "f"⟩), true, []⟩, .ok (some ("beef")),
    .error ("unused"), fun _ => .error ("unused")⟩

/-- A one-record batch. -/
def demoEntries : List PdaSqlite := [demoRec]

/-- A filesystem environment whose first rename fails with `AlreadyExists`
and whose retried rename fails with a permission error. -/
def retryFailEnv : FsEnv :=
  { createTemp := .ok (), writeSerialize := .ok (), flushTemp := .ok (), syncTemp := .ok (),
    renameFirst := .error ⟨.alreadyExists, "destination exists"⟩,
    removeDest := .ok (),
    renameRetry := .error ⟨.permissionDenied, "permission denied"⟩ }

/-- A filesystem environment whose first rename fails with an error other
than `AlreadyExists`. -/
def otherFailEnv : FsEnv :=
  { createTemp := .ok (), writeSerialize := .ok (), flushTemp := .ok (), syncTemp := .ok (),
    renameFirst := .error ⟨.otherKind, "disk full"⟩,
    removeDest := .ok (),
    renameRetry := .ok () }

/-! ## Theorems -/

/-- C6: a missing checkpoint file loads as the empty set, a present file
whose contents fail to deserialize loads as the empty set, and the load step
never returns an error. -/
theorem c6_checkpoint_load_never_fatal (dec : List Byte → Option (Finset Address))
    (contents : List Byte) (hcorrupt : dec contents = none) :
    loadDedupHashset dec .missing = .ok ∅
    ∧ loadDedupHashset dec (.present contents) = .ok ∅
    ∧ ∀ file : CheckpointFile, ∃ s, loadDedupHashset dec file = .ok s := by
  refine ⟨rfl, by simp [loadDedupHashset, hcorrupt], ?_⟩
  intro file
  cases file with
  | missing => exact ⟨∅, rfl⟩
  | present c => exact ⟨_, rfl⟩

/-- Witness for C6 at a decoder that always fails. -/
theorem c6_checkpoint_load_never_fatal_witness :
    loadDedupHashset (fun _ => none) CheckpointFile.missing = .ok ∅
    ∧ loadDedupHashset (fun _ => none) (.present [0, 1, 2]) = .ok ∅ :=
  ⟨(c6_checkpoint_load_never_fatal (fun _ => none) [0, 1, 2] rfl).1,
    (c6_checkpoint_load_never_fatal (fun _ => none) [0, 1, 2] rfl).2.1⟩

/-- A terminal verdict ends the polling loop at once, with an empty request
trace, whatever the fuel and attempt count. -/
lemma pollLoopFuel_finish (env : PollEnv) (fuel : Nat) (status : ImportStatus) (attempts : Nat)
    (r : Except D1Error Unit) (hv : evalImportStatus status = .finish r) :
    pollLoopFuel env fuel status attempts = (r, []) := by
  cases fuel <;> simp [pollLoopFuel, hv]

/-- C4: a poll status whose error text is the sentinel
`Not currently importing anything.` terminates the polling loop with success
immediately — no further request is sent — regardless of its `success` flag
or status text. -/
theorem c4_sentinel_is_terminal_success (env : PollEnv) (status : ImportStatus)
    (h : status.error = some NOT_IMPORTING_SENTINEL) :
    poll_import_until_complete env status = (.ok (), []) := by
  have hv : evalImportStatus status = .finish (.ok ()) := by
    unfold evalImportStatus
    simp [h]
  exact pollLoopFuel_finish env MAX_ATTEMPTS status 0 (.ok ()) hv

/-- Witness for C4 at a status with `success=false` and a non-terminal status
text. -/
theorem c4_sentinel_is_terminal_success_witness :
    poll_import_until_complete demoPollEnv demoSentinelStatus = (.ok (), []) :=
  c4_sentinel_is_terminal_success demoPollEnv demoSentinelStatus rfl

/-- Every request the polling loop sends is a poll request preceded by the
fixed delay. -/
lemma pollLoopFuel_trace_shape (env : PollEnv) (fuel : Nat) :
    ∀ (status : ImportStatus) (attempts : Nat) (r : D1Request),
      r ∈ (pollLoopFuel env fuel status attempts).2 → ∃ b, r = .pollReq POLL_DELAY_SECS b := by
  induction fuel with
  | zero =>
    intro status attempts r hr
    cases hv : evalImportStatus status <;> simp [pollLoopFuel, hv] at hr
  | succ fuel ih =>
    intro status attempts r hr
    cases hv : evalImportStatus status with
    | finish res => simp [pollLoopFuel, hv] at hr
    | continuePolling =>
      simp only [pollLoopFuel, hv] at hr
      by_cases hcap : attempts + 1 ≥ MAX_ATTEMPTS
      · simp [hcap] at hr
      · simp only [if_neg hcap] at hr
        cases hp : env.poll (attempts + 1) with
        | error c =>
          simp [hp] at hr
          exact ⟨status.at_bookmark, hr⟩
        | ok resp =>
          simp only [hp] at hr
          by_cases hsucc : resp.success = false
          · simp [hsucc] at hr
            exact ⟨status.at_bookmark, hr⟩
          · simp only [if_neg hsucc] at hr
            cases hres : resp.result with
            | none =>
              simp [hres] at hr
              exact ⟨status.at_bookmark, hr⟩
            | some status' =>
              simp only [hres] at hr
              rcases List.mem_cons.mp hr with h1 | h2
              · exact ⟨status.at_bookmark, h1⟩
              · exact ih status' (attempts + 1) r h2

/-- The polling loop sends at most `MAX_ATTEMPTS - 1 - attempts` further poll
requests, whatever the responses. -/
lemma pollLoopFuel_length_le (env : PollEnv) (fuel : Nat) :
    ∀ (status : ImportStatus) (attempts : Nat),
      (pollLoopFuel env fuel status attempts).2.length ≤ MAX_ATTEMPTS - 1 - attempts := by
  induction fuel with
  | zero =>
    intro s a
    cases hv : evalImportStatus s <;> simp [pollLoopFuel, hv]
  | succ fuel ih =>
    intro s a
    cases hv : evalImportStatus s with
    | finish r => simp [pollLoopFuel, hv]
    | continuePolling =>
      simp only [pollLoopFuel, hv]
      by_cases hcap : a + 1 ≥ MAX_ATTEMPTS
      · simp [hcap]
      · simp only [if_neg hcap]
        cases hp : env.poll (a + 1) with
        | error c =>
          simp [hp]
          omega
        | ok resp =>
          simp only [hp]
          by_cases hsucc : resp.success = false
          · simp [hsucc]
            omega
          · simp only [if_neg hsucc]
            cases hres : resp.result with
            | none =>
              simp [hres]
              omega
            | some s' =>
              have h2 := ih s' (a + 1)
              simp only [hres, List.length_cons]
              omega

/-- When no response ever yields a terminal verdict, the loop runs to the
attempt cap: the result is the timeout error and exactly
`MAX_ATTEMPTS - 1 - attempts` further poll requests are sent. -/
lemma pollLoopFuel_timeout (env : PollEnv) (f : Nat → ImportStatus)
    (hpoll : ∀ n, env.poll n = .ok ⟨some (f n), true, []⟩)
    (hnt : ∀ n, evalImportStatus (f n) = .continuePolling) (fuel : Nat) :
    ∀ (status : ImportStatus) (attempts : Nat), MAX_ATTEMPTS ≤ fuel + attempts →
      evalImportStatus status = .continuePolling →
      (pollLoopFuel env fuel status attempts).1 = .error (.timedOut MAX_ATTEMPTS)
      ∧ (pollLoopFuel env fuel status attempts).2.length = MAX_ATTEMPTS - 1 - attempts := by
  induction fuel with
  | zero =>
    intro s a hle hv
    have hcap : MAX_ATTEMPTS - 1 - a = 0 := by omega
    simp [pollLoopFuel, hv, hcap]
  | succ fuel ih =>
    intro s a hle hv
    simp only [pollLoopFuel, hv]
    by_cases hcap : a + 1 ≥ MAX_ATTEMPTS
    · have hz : MAX_ATTEMPTS - 1 - a = 0 := by omega
      simp [hcap, hz]
    · have h2 := ih (f (a + 1)) (a + 1) (by omega) (hnt (a + 1))
      constructor
      · simp [if_neg hcap, hpoll (a + 1), h2.1]
      · simp [if_neg hcap, hpoll (a + 1), h2.2]
        omega

/-- C5: the polling loop uses a fixed 1-second delay and a hard cap of 300
attempts; on a response sequence that never reaches a terminal state it stops
at exactly the cap with a timeout error, an error distinct from every
protocol-failure error; and no run of the loop ever sends more than 299 poll
requests. -/
theorem c5_polling_cap_and_timeout (env : PollEnv) (s0 : ImportStatus) (f : Nat → ImportStatus)
    (hpoll : ∀ n, env.poll n = .ok ⟨some (f n), true, []⟩)
    (hs0 : evalImportStatus s0 = .continuePolling)
    (hnt : ∀ n, evalImportStatus (f n) = .continuePolling) :
    MAX_ATTEMPTS = 300 ∧ POLL_DELAY_SECS = 1
    ∧ (poll_import_until_complete env s0).1 = .error (.timedOut MAX_ATTEMPTS)
    ∧ (poll_import_until_complete env s0).2.length = MAX_ATTEMPTS - 1
    ∧ (∀ r ∈ (poll_import_until_complete env s0).2, ∃ b, r = .pollReq POLL_DELAY_SECS b)
    ∧ (∀ (env' : PollEnv) (s' : ImportStatus),
        (poll_import_until_complete env' s').2.length ≤ MAX_ATTEMPTS - 1)
    ∧ (∀ m n, D1Error.timedOut n ≠ .apiError m ∧ D1Error.timedOut n ≠ .httpError m
        ∧ D1Error.timedOut n ≠ .importFailed m) := by
  refine ⟨rfl, rfl, ?_, ?_, ?_, ?_, ?_⟩
  · exact (pollLoopFuel_timeout env f hpoll hnt MAX_ATTEMPTS s0 0 (by omega) hs0).1
  · have h := (pollLoopFuel_timeout env f hpoll hnt MAX_ATTEMPTS s0 0 (by omega) hs0).2
    simpa using h
  · intro r hr
    exact pollLoopFuel_trace_shape env MAX_ATTEMPTS s0 0 r hr
  · intro env' s'
    have h := pollLoopFuel_length_le env' MAX_ATTEMPTS s' 0
    simpa using h
  · intro m n
    refine ⟨by simp, by simp, by simp⟩

/-- Witness for C5 at an environment whose every response is the same
non-terminal status. -/
theorem c5_polling_cap_and_timeout_witness :
    (poll_import_until_complete busyPollEnv busyStatus).1 = .error (.timedOut MAX_ATTEMPTS) :=
  (c5_polling_cap_and_timeout busyPollEnv busyStatus (fun _ => busyStatus)
    (fun _ => rfl) (by decide)
    (fun _ => (by decide : evalImportStatus busyStatus = PollVerdict.continuePolling))).2.2.1

/-- C3: under an init response of the staging shape, a staged upload whose
quote-stripped ETag differs from the locally computed checksum makes
`upload_to_d1` return the integrity error without ever sending an ingest
request; and an ingest request is sent only when the stripped tag equals the
checksum exactly. -/
theorem c3_etag_mismatch_aborts (env : D1Env) (entries : List PdaSqlite)
    (script : String) (u : InitUploadResult) (errs : List CfApiError) (rawEtag : String)
    (hscript : build_insert_script entries = some script)
    (hinit : env.initResp = .ok ⟨some (.upload u), true, errs⟩)
    (hstaging : env.stagingResp = .ok (some rawEtag)) :
    (trimMatches dquoteChar rawEtag ≠ env.md5hex script →
      upload_to_d1 env entries
        = (.error (.etagMismatch (env.md5hex script) (trimMatches dquoteChar rawEtag)),
            [.initReq (env.md5hex script), .stagingPut script])
      ∧ ∀ e fn, D1Request.ingestReq e fn ∉ (upload_to_d1 env entries).2)
    ∧ (∀ e fn, D1Request.ingestReq e fn ∈ (upload_to_d1 env entries).2 →
        trimMatches dquoteChar rawEtag = env.md5hex script ∧ e = env.md5hex script) := by
  have hne : entries.isEmpty = false := by
    cases h : entries.isEmpty
    · rfl
    · unfold build_insert_script at hscript
      simp [h] at hscript
  simp only [upload_to_d1, hne, hscript, hinit, hstaging, Bool.false_eq_true, if_false]
  constructor
  · intro hmm
    rw [if_pos hmm]
    refine ⟨rfl, ?_⟩
    intro e fn
    simp
  · intro e fn hmem
    by_cases hmm : trimMatches dquoteChar rawEtag ≠ env.md5hex script
    · rw [if_pos hmm] at hmem
      simp at hmem
    · rw [if_neg hmm] at hmem
      push_neg at hmm
      refine ⟨hmm, ?_⟩
      cases hing : env.ingestResp with
      | error c =>
        rw [hing] at hmem
        simp at hmem
        exact hmem.1
      | ok iresp =>
        rw [hing] at hmem
        by_cases hsucc : iresp.success = false
        · simp [hsucc] at hmem
          exact hmem.1
        · simp only [if_neg hsucc] at hmem
          cases hres : iresp.result with
          | none =>
            rw [hres] at hmem
            simp at hmem
            exact hmem.1
          | some st =>
            rw [hres] at hmem
            simp at hmem
            rcases hmem with ⟨he, hf⟩ | h4
            · exact he
            · obtain ⟨b, hb⟩ := pollLoopFuel_trace_shape ⟨env.poll⟩ MAX_ATTEMPTS st 0
                (D1Request.ingestReq e fn) h4
              simp at hb

/-- Witness for C3 at an environment returning a mismatched ETag. -/
theorem c3_etag_mismatch_aborts_witness :
    D1Request.ingestReq ("e") ("f") ∉ (upload_to_d1 mismatchEnv demoEntries).2 :=
  ((c3_etag_mismatch_aborts mismatchEnv demoEntries _ _ _ _ rfl rfl rfl).1
    (by decide)).2 ("e") ("f")

/-- A string occurring between two others is found by `strContains`. -/
lemma strContains_append_middle (a p b : String) : strContains (a ++ p ++ b) p = true := by
  have hdata : (a ++ p ++ b).data = a.data ++ (p.data ++ b.data) := by
    rw [String.data_append, String.data_append, List.append_assoc]
  unfold strContains
  rw [List.any_eq_true]
  refine ⟨a.data.length, ?_, ?_⟩
  · rw [List.mem_range, hdata, List.length_append, List.length_append]
    omega
  · rw [hdata, List.drop_left, List.isPrefixOf_iff_prefix]
    exact List.prefix_append _ _

/-- C9 counterexample: when the first rename fails with `AlreadyExists` and
the retried rename fails, `save_dedup_hashset` propagates the retried
rename's own error text, which does not report the destination path — the
claim's final conjunct fails on the code. -/
theorem c9_retry_error_lacks_path_counterexample :
    (save_dedup_hashset retryFailEnv ("/tmp/dedup")).1 = .error ("permission denied")
    ∧ strContains ("permission denied") ("/tmp/dedup") = false := by
  constructor
  · rfl
  · decide

/-- C9 amended: checkpoint persistence writes, flushes and syncs a temporary
file then renames it over the destination; a first rename failing with
`AlreadyExists` leads to removing the destination and retrying the rename
exactly once; a failure of the retried rename is fatal but propagates the
underlying I/O error text unchanged (without the destination path); the
destination path is reported when the first rename fails with any other
error. -/
theorem c9_atomic_replace_amended (env : FsEnv) (destPath : String) (e1 e2 : IoError)
    (hc : env.createTemp = .ok ()) (hw : env.writeSerialize = .ok ())
    (hf : env.flushTemp = .ok ()) (hs : env.syncTemp = .ok ()) :
    (env.renameFirst = .ok () →
      save_dedup_hashset env destPath =
        (.ok (), [.createTempFile, .writeTempFile, .flushTempFile, .syncTempFile,
          .renameTempToDest]))
    ∧ (env.renameFirst = .error e1 → e1.kind = .alreadyExists → env.removeDest = .ok () →
        env.renameRetry = .error e2 →
        save_dedup_hashset env destPath =
          (.error e2.msg, [.createTempFile, .writeTempFile, .flushTempFile, .syncTempFile,
            .renameTempToDest, .removeDestFile, .renameTempToDest]))
    ∧ (env.renameFirst = .error e1 → e1.kind ≠ .alreadyExists →
        save_dedup_hashset env destPath =
          (.error ("failed to replace dedup hashset at " ++ destPath ++ ": " ++ e1.msg),
            [.createTempFile, .writeTempFile, .flushTempFile, .syncTempFile,
              .renameTempToDest, .removeTempFile])
        ∧ strContains ("failed to replace dedup hashset at " ++ destPath ++ ": " ++ e1.msg)
            destPath = true) := by
  refine ⟨?_, ?_, ?_⟩
  · intro hr
    simp [save_dedup_hashset, hc, hw, hf, hs, hr]
  · intro hr hkind hrm hr2
    simp [save_dedup_hashset, hc, hw, hf, hs, hr, hkind, hrm, hr2]
  · intro hr hkind
    constructor
    · simp [save_dedup_hashset, hc, hw, hf, hs, hr, hkind]
    · have h := strContains_append_middle ("failed to replace dedup hashset at ") destPath
        (": " ++ e1.msg)
      simpa [String.append_assoc] using h

/-- Witness for the amended C9 at the two concrete failing environments. -/
theorem c9_atomic_replace_amended_witness :
    save_dedup_hashset retryFailEnv ("/tmp/dedup") =
      (.error ("permission denied"), [.createTempFile, .writeTempFile, .flushTempFile,
        .syncTempFile, .renameTempToDest, .removeDestFile, .renameTempToDest])
    ∧ strContains ("failed to replace dedup hashset at /tmp/dedup: disk full")
        ("/tmp/dedup") = true :=
  ⟨(c9_atomic_replace_amended retryFailEnv ("/tmp/dedup") ⟨.alreadyExists, "destination exists"⟩
      ⟨.permissionDenied, "permission denied"⟩ rfl rfl rfl rfl).2.1 rfl rfl rfl rfl,
    (((c9_atomic_replace_amended otherFailEnv ("/tmp/dedup") ⟨.otherKind, "disk full"⟩
      ⟨.otherKind, "disk full"⟩ rfl rfl rfl rfl).2.2 rfl (by decide)).2.trans (by decide))⟩

/-- Reassembling the four little-endian bytes of a `u32` recovers the
value. -/
lemma u32OfLeBytes_u32ToLeBytes (n : Nat) (h : n < 4294967296) :
    u32OfLeBytes (n % 256) (n / 256 % 256) (n / 65536 % 256) (n / 16777216 % 256) = n := by
  unfold u32OfLeBytes
  omega

/-- The simple decode loop returns nothing when fewer than four bytes
remain. -/
lemma decodeSeedsLoopS_short (n : Nat) (l : List Byte) (h : l.length < 4) :
    decodeSeedsLoopS n l = [] := by
  cases n with
  | zero => rfl
  | succ n =>
    rcases l with _ | ⟨a, _ | ⟨b, _ | ⟨c, _ | ⟨d, tail⟩⟩⟩⟩
    · rfl
    · rfl
    · rfl
    · rfl
    · simp at h
      omega

/-- The simple decoder returns nothing on fewer than four bytes. -/
lemma decodeSeedsS_short (l : List Byte) (h : l.length < 4) : decodeSeedsS l = [] := by
  rcases l with _ | ⟨a, _ | ⟨b, _ | ⟨c, _ | ⟨d, tail⟩⟩⟩⟩
  · rfl
  · rfl
  · rfl
  · rfl
  · simp at h
    omega

/-- The cursor-based decode loop never fails, and agrees with the cursor-free
restatement applied to the bytes after the cursor. -/
lemma decodeSeedsLoop_eq (raw : List Byte) (n : Nat) :
    ∀ cursor, cursor ≤ raw.length →
      decodeSeedsLoop raw n cursor = some (decodeSeedsLoopS n (raw.drop cursor)) := by
  induction n with
  | zero =>
    intro cursor hc
    rfl
  | succ n ih =>
    intro cursor hc
    by_cases hguard : cursor + 4 > raw.length
    · have hlen : (raw.drop cursor).length < 4 := by
        rw [List.length_drop]
        omega
      simp [decodeSeedsLoop, hguard, decodeSeedsLoopS_short _ _ hlen]
    · push_neg at hguard
      have hdlen : (raw.drop cursor).length = raw.length - cursor := List.length_drop ..
      rcases hd : raw.drop cursor with _ | ⟨b0, _ | ⟨b1, _ | ⟨b2, _ | ⟨b3, tail⟩⟩⟩⟩
      · rw [hd] at hdlen
        simp at hdlen
        omega
      · rw [hd] at hdlen
        simp at hdlen
        omega
      · rw [hd] at hdlen
        simp at hdlen
        omega
      · rw [hd] at hdlen
        simp at hdlen
        omega
      have hb0 : sliceIndex raw cursor = some b0 := by
        have h := List.getElem?_drop raw cursor 0
        rw [hd] at h
        simp only [sliceIndex, List.get?_eq_getElem?]
        simp at h
        first
        | exact h
        | exact h.symm
      have hb1 : sliceIndex raw (cursor + 1) = some b1 := by
        have h := List.getElem?_drop raw cursor 1
        rw [hd] at h
        simp only [sliceIndex, List.get?_eq_getElem?]
        simp at h
        first
        | exact h
        | exact h.symm
      have hb2 : sliceIndex raw (cursor + 2) = some b2 := by
        have h := List.getElem?_drop raw cursor 2
        rw [hd] at h
        simp only [sliceIndex, List.get?_eq_getElem?]
        simp at h
        first
        | exact h
        | exact h.symm
      have hb3 : sliceIndex raw (cursor + 3) = some b3 := by
        have h := List.getElem?_drop raw cursor 3
        rw [hd] at h
        simp only [sliceIndex, List.get?_eq_getElem?]
        simp at h
        first
        | exact h
        | exact h.symm
      have htail : raw.drop (cursor + 4) = tail := by
        have hdd := List.drop_drop 4 cursor raw
        rw [hd] at hdd
        simpa using hdd.symm
      have htlen : tail.length = raw.length - (cursor + 4) := by
        rw [← htail, List.length_drop]
      by_cases hg2 : cursor + 4 + u32OfLeBytes b0 b1 b2 b3 > raw.length
      · have hshort : ¬ u32OfLeBytes b0 b1 b2 b3 ≤ tail.length := by
          rw [htlen]
          omega
        simp [decodeSeedsLoop, Nat.not_lt.mpr hguard, hb0, hb1, hb2, hb3, hg2, hd,
          decodeSeedsLoopS, hshort]
      · push_neg at hg2
        have hsub : cursor + 4 + u32OfLeBytes b0 b1 b2 b3 - (cursor + 4)
            = u32OfLeBytes b0 b1 b2 b3 := by
          omega
        have hslice : sliceRange raw (cursor + 4) (cursor + 4 + u32OfLeBytes b0 b1 b2 b3)
            = some (tail.take (u32OfLeBytes b0 b1 b2 b3)) := by
          unfold sliceRange
          rw [if_pos (by refine ⟨by omega, by omega⟩), hsub, htail]
        have hrec := ih (cursor + 4 + u32OfLeBytes b0 b1 b2 b3) (by omega)
        have hdrop2 : raw.drop (cursor + 4 + u32OfLeBytes b0 b1 b2 b3)
            = tail.drop (u32OfLeBytes b0 b1 b2 b3) := by
          have hdd := List.drop_drop (u32OfLeBytes b0 b1 b2 b3) (cursor + 4) raw
          rw [htail] at hdd
          rw [← hdd]
        have hlong : u32OfLeBytes b0 b1 b2 b3 ≤ tail.length := by
          rw [htlen]
          omega
        simp [decodeSeedsLoop, Nat.not_lt.mpr hguard, hb0, hb1, hb2, hb3,
          Nat.not_lt.mpr hg2, hslice, hrec, hdrop2, hd, decodeSeedsLoopS, hlong]

/-- C7 core: the cursor-based decoder never fails (every slice access is in
bounds) and computes the cursor-free restatement. -/
lemma decode_seeds_from_storage_eq (raw : List Byte) :
    decode_seeds_from_storage raw = some (decodeSeedsS raw) := by
  by_cases h4 : raw.length < 4
  · simp [decode_seeds_from_storage, h4, decodeSeedsS_short raw h4]
  · rcases raw with _ | ⟨b0, _ | ⟨b1, _ | ⟨b2, _ | ⟨b3, rest⟩⟩⟩⟩
    · exact absurd (by simp) h4
    · exact absurd (by simp) h4
    · exact absurd (by simp) h4
    · exact absurd (by simp) h4
    have hrec := decodeSeedsLoop_eq (b0 :: b1 :: b2 :: b3 :: rest)
      (u32OfLeBytes b0 b1 b2 b3) 4 (by simp)
    unfold decode_seeds_from_storage
    rw [if_neg h4]
    show decodeSeedsLoop (b0 :: b1 :: b2 :: b3 :: rest) (u32OfLeBytes b0 b1 b2 b3) 4
      = some (decodeSeedsS (b0 :: b1 :: b2 :: b3 :: rest))
    rw [hrec]
    rfl

/-- Unfolding equation of the simple decode loop at a 4-byte-headed list. -/
lemma decodeSeedsLoopS_cons (n : Nat) (b0 b1 b2 b3 : Byte) (tail : List Byte) :
    decodeSeedsLoopS (n + 1) (b0 :: b1 :: b2 :: b3 :: tail)
      = if u32OfLeBytes b0 b1 b2 b3 ≤ tail.length then
          tail.take (u32OfLeBytes b0 b1 b2 b3)
            :: decodeSeedsLoopS n (tail.drop (u32OfLeBytes b0 b1 b2 b3))
        else [] := rfl

/-- Unfolding equation of the simple decoder at a 4-byte-headed list. -/
lemma decodeSeedsS_cons (b0 b1 b2 b3 : Byte) (rest : List Byte) :
    decodeSeedsS (b0 :: b1 :: b2 :: b3 :: rest)
      = decodeSeedsLoopS (u32OfLeBytes b0 b1 b2 b3) rest := rfl

/-- The little-endian length header expanded to its four bytes. -/
lemma u32ToLeBytes_expand (n : Nat) :
    u32ToLeBytes n = [n % 256, n / 256 % 256, n / 65536 % 256, n / 16777216 % 256] := rfl

/-- Decoding the encoded seed bodies with the exact seed count recovers the
seeds. -/
lemma decodeSeedsLoopS_encode (seeds : List (List Byte))
    (h : ∀ s ∈ seeds, s.length < 4294967296) :
    decodeSeedsLoopS seeds.length
      ((seeds.map (fun seed => u32ToLeBytes seed.length ++ seed)).flatten) = seeds := by
  induction seeds with
  | nil => rfl
  | cons s ss ih =>
    have hs : s.length < 4294967296 := h s (by simp)
    have hss : ∀ x ∈ ss, x.length < 4294967296 := fun x hx => h x (by simp [hx])
    simp only [List.map_cons, List.flatten_cons, List.length_cons]
    rw [u32ToLeBytes_expand s.length]
    simp only [List.cons_append, List.nil_append, List.append_assoc]
    rw [decodeSeedsLoopS_cons]
    rw [u32OfLeBytes_u32ToLeBytes s.length hs]
    rw [if_pos (by simp)]
    rw [List.take_left' rfl, List.drop_left' rfl]
    rw [ih hss]

/-- Decoding any prefix of the encoded seed bodies with the exact seed count
yields a prefix of the seeds. -/
lemma decodeSeedsLoopS_encode_take (seeds : List (List Byte))
    (h : ∀ s ∈ seeds, s.length < 4294967296) :
    ∀ j, ∃ m, decodeSeedsLoopS seeds.length
        (((seeds.map (fun seed => u32ToLeBytes seed.length ++ seed)).flatten).take j)
      = seeds.take m := by
  induction seeds with
  | nil => exact fun j => ⟨0, rfl⟩
  | cons s ss ih =>
    intro j
    have hs : s.length < 4294967296 := h s (by simp)
    have hss : ∀ x ∈ ss, x.length < 4294967296 := fun x hx => h x (by simp [hx])
    by_cases hj : j < 4
    · refine ⟨0, ?_⟩
      have hlen : ((((s :: ss).map
          (fun seed => u32ToLeBytes seed.length ++ seed)).flatten).take j).length < 4 := by
        rw [List.length_take]
        omega
      rw [decodeSeedsLoopS_short _ _ hlen]
      rfl
    · push_neg at hj
      simp only [List.map_cons, List.flatten_cons, List.length_cons]
      rw [List.append_assoc]
      rw [@List.take_append_eq_append_take _ (u32ToLeBytes s.length) _ _]
      rw [List.take_of_length_le (show (u32ToLeBytes s.length).length ≤ j by
        rw [u32ToLeBytes_expand]
        simpa using hj)]
      rw [show (u32ToLeBytes s.length).length = 4 from rfl]
      rw [u32ToLeBytes_expand s.length]
      simp only [List.cons_append, List.nil_append]
      rw [decodeSeedsLoopS_cons]
      rw [u32OfLeBytes_u32ToLeBytes s.length hs]
      by_cases hj2 : j - 4 < s.length
      · have hlt : ¬ s.length ≤ (((s
            ++ (ss.map (fun seed => u32ToLeBytes seed.length ++ seed)).flatten)).take
              (j - 4)).length := by
          rw [List.length_take]
          simp only [List.length_append]
          omega
        rw [if_neg hlt]
        exact ⟨0, rfl⟩
      · push_neg at hj2
        rw [@List.take_append_eq_append_take _ s _ _]
        rw [List.take_of_length_le hj2]
        rw [if_pos (by simp)]
        rw [List.take_left' rfl, List.drop_left' rfl]
        obtain ⟨m, hm⟩ := ih hss (j - 4 - s.length)
        rw [hm]
        exact ⟨m + 1, rfl⟩

/-- C7: the seed-storage decoder is total — every slice access it performs is
in bounds, on every input byte sequence — and decoding a valid encoding
truncated at any byte boundary yields the list of seeds fully decoded before
the cut (a prefix of the original seeds, possibly empty). -/
theorem c7_truncation_safety (seeds : List (List Byte))
    (hcount : seeds.length < 4294967296)
    (hlens : ∀ s ∈ seeds, s.length < 4294967296) :
    (∀ raw, decode_seeds_from_storage raw = some (decodeSeedsS raw))
    ∧ ∀ k, ∃ m, decode_seeds_from_storage ((encode_seeds_for_storage seeds).take k)
        = some (seeds.take m) := by
  refine ⟨decode_seeds_from_storage_eq, ?_⟩
  intro k
  rw [decode_seeds_from_storage_eq]
  by_cases hk : k < 4
  · refine ⟨0, ?_⟩
    have hlen : ((encode_seeds_for_storage seeds).take k).length < 4 := by
      rw [List.length_take]
      omega
    rw [decodeSeedsS_short _ hlen]
    rfl
  · push_neg at hk
    unfold encode_seeds_for_storage
    rw [List.take_append_eq_append_take]
    rw [List.take_of_length_le (show (u32ToLeBytes seeds.length).length ≤ k by
      rw [u32ToLeBytes_expand]
      simpa using hk)]
    rw [show (u32ToLeBytes seeds.length).length = 4 from rfl]
    rw [u32ToLeBytes_expand seeds.length]
    simp only [List.cons_append, List.nil_append]
    rw [decodeSeedsS_cons]
    rw [u32OfLeBytes_u32ToLeBytes seeds.length hcount]
    obtain ⟨m, hm⟩ := decodeSeedsLoopS_encode_take seeds hlens (k - 4)
    rw [hm]
    exact ⟨m, rfl⟩

/-- Witness for C7: decoding an arbitrary byte sequence succeeds, via the
theorem applied at a concrete seed list. -/
theorem c7_truncation_safety_witness :
    decode_seeds_from_storage [9, 0, 0, 0, 2, 0] = some (decodeSeedsS [9, 0, 0, 0, 2, 0]) :=
  (c7_truncation_safety [[7]] (by decide) (by decide)).1 [9, 0, 0, 0, 2, 0]

/-- C10: decoding the seed-storage encoding of any seed list whose count and
per-seed lengths fit in a `u32` returns exactly the original list. -/
theorem c10_seed_encoding_roundtrip (seeds : List (List Byte))
    (hcount : seeds.length < 4294967296)
    (hlens : ∀ s ∈ seeds, s.length < 4294967296) :
    decode_seeds_from_storage (encode_seeds_for_storage seeds) = some seeds := by
  rw [decode_seeds_from_storage_eq]
  unfold encode_seeds_for_storage
  rw [u32ToLeBytes_expand seeds.length]
  simp only [List.cons_append, List.nil_append]
  rw [decodeSeedsS_cons]
  rw [u32OfLeBytes_u32ToLeBytes seeds.length hcount]
  rw [decodeSeedsLoopS_encode seeds hlens]

/-- Witness for C10 at a concrete seed list. -/
theorem c10_seed_encoding_roundtrip_witness :
    decode_seeds_from_storage (encode_seeds_for_storage [[1, 2], [], [255]])
      = some [[1, 2], [], [255]] :=
  c10_seed_encoding_roundtrip [[1, 2], [], [255]] (by decide) (by decide)

/-- On a key-sorted list, dropping every element whose key equals the last
kept key yields strictly increasing keys, all above the running key. -/
lemma dedupByKeyAux_spec :
    ∀ (l : List PdaSqlite) (prev : Address),
      l.Pairwise (fun a b => a.pda ≤ b.pda) → (∀ e ∈ l, prev ≤ e.pda) →
      (dedupByKeyAux prev l).Pairwise (fun a b => a.pda < b.pda)
      ∧ ∀ e ∈ dedupByKeyAux prev l, prev < e.pda := by
  intro l
  induction l with
  | nil =>
    intro prev _ _
    exact ⟨List.Pairwise.nil, by simp [dedupByKeyAux]⟩
  | cons a rest ih =>
    intro prev hp hge
    rcases List.pairwise_cons.mp hp with ⟨ha, hrest⟩
    by_cases heq : a.pda = prev
    · have hge' : ∀ e ∈ rest, prev ≤ e.pda := by
        intro e he
        rw [← heq]
        exact ha e he
      simp only [dedupByKeyAux, if_pos heq]
      exact ih prev hrest hge'
    · have hlt : prev < a.pda := lt_of_le_of_ne (hge a (by simp)) (fun h => heq h.symm)
      have hres := ih a.pda hrest ha
      simp only [dedupByKeyAux, if_neg heq]
      constructor
      · exact List.pairwise_cons.mpr ⟨fun e he => hres.2 e he, hres.1⟩
      · intro e he
        rcases List.mem_cons.mp he with rfl | he2
        · exact hlt
        · exact lt_trans hlt (hres.2 e he2)

/-- Adjacent-duplicate collapse of a key-sorted list leaves strictly
increasing keys. -/
lemma dedupByPda_pairwise (l : List PdaSqlite)
    (h : l.Pairwise (fun a b => a.pda ≤ b.pda)) :
    (dedupByPda l).Pairwise (fun a b => a.pda < b.pda) := by
  cases l with
  | nil => exact List.Pairwise.nil
  | cons a rest =>
    rcases List.pairwise_cons.mp h with ⟨ha, hrest⟩
    have hres := dedupByKeyAux_spec rest a.pda hrest ha
    exact List.pairwise_cons.mpr ⟨fun e he => hres.2 e he, hres.1⟩

/-- The modelled `sort_by_key` sorts by the `pda` key. -/
lemma sortByPda_sorted (entries : List PdaSqlite) :
    (sortByPda entries).Pairwise (fun a b => a.pda ≤ b.pda) := by
  have h := List.sorted_insertionSort (fun a b : PdaSqlite => a.pda ≤ b.pda) entries
  exact h

/-- C1: for every accumulated record collection and every checkpoint set
loaded at run start, the record list produced by `merge`'s deduplication
phase carries each distinct address at most once and contains no record
whose address is in the checkpoint set. -/
theorem c1_merge_set_correctness (entries : List PdaSqlite) (dedup_hashset : Finset Address) :
    ((mergeDedup entries dedup_hashset).map PdaSqlite.pda).Nodup
    ∧ ∀ e ∈ mergeDedup entries dedup_hashset, e.pda ∉ dedup_hashset := by
  constructor
  · have hsorted := sortByPda_sorted entries
    have hlt := dedupByPda_pairwise _ hsorted
    have hsub : (mergeDedup entries dedup_hashset).Sublist (dedupByPda (sortByPda entries)) :=
      List.filter_sublist _
    have hlt2 : (mergeDedup entries dedup_hashset).Pairwise (fun a b => a.pda < b.pda) :=
      List.Pairwise.sublist hsub hlt
    have hne : (mergeDedup entries dedup_hashset).Pairwise
        (fun a b => PdaSqlite.pda a ≠ PdaSqlite.pda b) :=
      hlt2.imp (fun h => ne_of_lt h)
    exact (List.pairwise_map).mpr hne
  · intro e he
    have h := List.of_mem_filter he
    simpa using h

/-- Witness for C1 at a concrete two-record batch and nonempty checkpoint
set. -/
theorem c1_merge_set_correctness_witness :
    demoRec.pda ∉ demoSet :=
  (c1_merge_set_correctness [demoRec, demoRec2] demoSet).2 demoRec (by decide)

/-- Chunking the empty list yields no chunks, whatever the fuel. -/
lemma chunksOfFuel_nil (n fuel : Nat) : chunksOfFuel n fuel ([] : List PdaSqlite) = [] := by
  cases fuel <;> rfl

/-- Dropping a positive chunk from a nonempty list fits in one less fuel. -/
lemma drop_len_le (n : Nat) (hn : 0 < n) (a : PdaSqlite) (t : List PdaSqlite) (fuel : Nat)
    (hl : (a :: t).length ≤ fuel + 1) : ((a :: t).drop n).length ≤ fuel := by
  rw [List.length_drop]
  simp only [List.length_cons] at hl ⊢
  omega

/-- With sufficient fuel, concatenating the chunks restores the list. -/
lemma chunksOfFuel_flatten (n : Nat) (hn : 0 < n) :
    ∀ (fuel : Nat) (l : List PdaSqlite), l.length ≤ fuel →
      (chunksOfFuel n fuel l).flatten = l := by
  intro fuel
  induction fuel with
  | zero =>
    intro l hl
    have hz : l = [] := List.eq_nil_of_length_eq_zero (by omega)
    subst hz
    rfl
  | succ fuel ih =>
    intro l hl
    cases l with
    | nil => rfl
    | cons a t =>
      simp only [chunksOfFuel, List.flatten_cons]
      rw [ih ((a :: t).drop n) (drop_len_le n hn a t fuel hl)]
      exact List.take_append_drop n (a :: t)

/-- `slice::chunks` concatenates back to the original list. -/
lemma chunksOf_flatten (n : Nat) (hn : 0 < n) (l : List PdaSqlite) :
    (chunksOf n l).flatten = l :=
  chunksOfFuel_flatten n hn l.length l le_rfl

/-- Every chunk is nonempty and no longer than the chunk size. -/
lemma chunksOfFuel_mem (n : Nat) (hn : 0 < n) :
    ∀ (fuel : Nat) (l : List PdaSqlite) (c : List PdaSqlite), l.length ≤ fuel →
      c ∈ chunksOfFuel n fuel l → c ≠ [] ∧ c.length ≤ n := by
  intro fuel
  induction fuel with
  | zero =>
    intro l c hl hc
    have hz : l = [] := List.eq_nil_of_length_eq_zero (by omega)
    subst hz
    rw [chunksOfFuel_nil] at hc
    simp at hc
  | succ fuel ih =>
    intro l c hl hc
    cases l with
    | nil => simp [chunksOfFuel_nil] at hc
    | cons a t =>
      simp only [chunksOfFuel] at hc
      rcases List.mem_cons.mp hc with rfl | h2
      · refine ⟨?_, List.length_take_le n (a :: t)⟩
        cases n with
        | zero => omega
        | succ m => simp
      · exact ih ((a :: t).drop n) c (drop_len_le n hn a t fuel hl) h2

/-- `slice::chunks` bounds: nonempty chunks of at most `n` records. -/
lemma chunksOf_mem (n : Nat) (hn : 0 < n) (l c : List PdaSqlite) (hc : c ∈ chunksOf n l) :
    c ≠ [] ∧ c.length ≤ n :=
  chunksOfFuel_mem n hn l.length l c le_rfl hc

/-- Every chunk except possibly the last has exactly `n` records. -/
lemma chunksOfFuel_get_length (n : Nat) (hn : 0 < n) :
    ∀ (fuel : Nat) (l : List PdaSqlite) (i : Nat) (c : List PdaSqlite), l.length ≤ fuel →
      (chunksOfFuel n fuel l).get? i = some c →
      i + 1 < (chunksOfFuel n fuel l).length → c.length = n := by
  intro fuel
  induction fuel with
  | zero =>
    intro l i c hl hc hi
    have hz : l = [] := List.eq_nil_of_length_eq_zero (by omega)
    subst hz
    rw [chunksOfFuel_nil] at hc
    simp at hc
  | succ fuel ih =>
    intro l i c hl hc hi
    cases l with
    | nil => simp [chunksOfFuel_nil] at hc
    | cons a t =>
      simp only [chunksOfFuel] at hc hi
      cases i with
      | zero =>
        simp only [List.get?_cons_zero, Option.some.injEq] at hc
        have hne : chunksOfFuel n fuel ((a :: t).drop n) ≠ [] := by
          intro hz
          rw [hz] at hi
          simp at hi
        have hdne : (a :: t).drop n ≠ [] := by
          intro hz
          rw [hz, chunksOfFuel_nil] at hne
          exact hne rfl
        have hlen : n < (a :: t).length := by
          by_contra hle
          push_neg at hle
          exact hdne (List.drop_eq_nil_of_le hle)
        rw [← hc, List.length_take]
        omega
      | succ i =>
        simp only [List.get?_cons_succ] at hc
        refine ih ((a :: t).drop n) i c (drop_len_le n hn a t fuel hl) hc ?_
        simp only [List.length_cons] at hi
        omega

/-- Each hex digit produced by `hexNibble` is one of the sixteen uppercase
hexadecimal characters. -/
lemma hexNibble_mem (x : Nat) : hexNibble x ∈ HEX_DIGITS := by
  unfold hexNibble
  have hx : x % 16 < HEX_DIGITS.length := by
    rw [show HEX_DIGITS.length = 16 from rfl]
    omega
  rw [List.getD_eq_getElem _ _ hx]
  exact List.getElem_mem hx

/-- C8: `build_insert_script` yields nothing for an empty record list and,
for a nonempty one, the in-order concatenation of one `INSERT OR IGNORE INTO
pda_registry` statement per chunk, where every chunk is nonempty, has at most
500 records, and the chunks concatenate back to the input in order; binary
fields render as `X'...'` uppercase-hex blob literals with the empty blob as
`X''`. -/
theorem c8_build_insert_script_shape (entries : List PdaSqlite) (bytes : List Byte)
    (hne : entries ≠ []) :
    build_insert_script [] = none
    ∧ build_insert_script entries
        = some (String.join ((chunksOf CHUNK_SIZE entries).map renderChunk))
    ∧ (chunksOf CHUNK_SIZE entries).flatten = entries
    ∧ (∀ c ∈ chunksOf CHUNK_SIZE entries, c ≠ [] ∧ c.length ≤ CHUNK_SIZE)
    ∧ to_blob_literal [] = "X" ++ squote ++ squote
    ∧ (bytes ≠ [] →
        to_blob_literal bytes = "X" ++ squote ++ String.join (bytes.map hexByte) ++ squote)
    ∧ (∀ b ∈ bytes, (hexByte b).data.length = 2 ∧ ∀ ch ∈ (hexByte b).data, ch ∈ HEX_DIGITS) := by
  have hpos : 0 < CHUNK_SIZE := by decide
  have hemp : entries.isEmpty = false := by
    simp [List.isEmpty_iff, hne]
  refine ⟨rfl, ?_, ?_, ?_, rfl, ?_, ?_⟩
  · simp [build_insert_script, hemp]
  · exact chunksOf_flatten CHUNK_SIZE hpos entries
  · exact fun c hc => chunksOf_mem CHUNK_SIZE hpos entries c hc
  · intro hb
    have hbemp : bytes.isEmpty = false := by
      simp [List.isEmpty_iff, hb]
    simp [to_blob_literal, hbemp]
  · intro b _
    refine ⟨rfl, ?_⟩
    intro ch hch
    rcases List.mem_cons.mp hch with rfl | hch2
    · exact hexNibble_mem (b / 16)
    · rcases List.mem_cons.mp hch2 with rfl | hch3
      · exact hexNibble_mem (b % 16)
      · simp at hch3

/-- Witness for C8 at a concrete one-record batch and byte list. -/
theorem c8_build_insert_script_shape_witness :
    (chunksOf CHUNK_SIZE demoEntries).flatten = demoEntries :=
  (c8_build_insert_script_shape demoEntries [0, 255] (by decide)).2.2.1

/-- Every `upload_to_d1` run on a batch with a script opens with its own init
request carrying that run's own checksum. -/
lemma upload_to_d1_trace_head (env : D1Env) (entries : List PdaSqlite) (script : String)
    (hscript : build_insert_script entries = some script) :
    ∃ rest, (upload_to_d1 env entries).2 = .initReq (env.md5hex script) :: rest := by
  have hemp : entries.isEmpty = false := by
    cases h : entries.isEmpty
    · rfl
    · unfold build_insert_script at hscript
      simp [h] at hscript
  cases hini : env.initResp with
  | error c => exact ⟨[], by simp [upload_to_d1, hemp, hscript, hini]⟩
  | ok resp =>
    by_cases hsucc : resp.success = false
    · exact ⟨[], by simp [upload_to_d1, hemp, hscript, hini, hsucc]⟩
    · cases hres : resp.result with
      | none => exact ⟨[], by simp [upload_to_d1, hemp, hscript, hini, hsucc, hres]⟩
      | some ir =>
        cases ir with
        | upload u =>
          cases hst : env.stagingResp with
          | error c =>
            exact ⟨[.stagingPut script],
              by simp [upload_to_d1, hemp, hscript, hini, hsucc, hres, hst]⟩
          | ok oe =>
            cases oe with
            | none =>
              exact ⟨[.stagingPut script],
                by simp [upload_to_d1, hemp, hscript, hini, hsucc, hres, hst]⟩
            | some raw =>
              by_cases hmm : trimMatches dquoteChar raw ≠ env.md5hex script
              · exact ⟨[.stagingPut script],
                  by simp [upload_to_d1, hemp, hscript, hini, hsucc, hres, hst, hmm]⟩
              · cases hing : env.ingestResp with
                | error c =>
                  exact ⟨[.stagingPut script, .ingestReq (env.md5hex script) u.filename],
                    by simp [upload_to_d1, hemp, hscript, hini, hsucc, hres, hst, hmm, hing]⟩
                | ok iresp =>
                  by_cases hisucc : iresp.success = false
                  · exact ⟨[.stagingPut script, .ingestReq (env.md5hex script) u.filename],
                      by simp [upload_to_d1, hemp, hscript, hini, hsucc, hres, hst, hmm, hing,
                        hisucc]⟩
                  · cases hires : iresp.result with
                    | none =>
                      exact ⟨[.stagingPut script, .ingestReq (env.md5hex script) u.filename],
                        by simp [upload_to_d1, hemp, hscript, hini, hsucc, hres, hst, hmm, hing,
                          hisucc, hires]⟩
                    | some st =>
                      exact ⟨.stagingPut script :: .ingestReq (env.md5hex script) u.filename
                          :: (poll_import_until_complete ⟨env.poll⟩ st).2,
                        by simp [upload_to_d1, hemp, hscript, hini, hsucc, hres, hst, hmm, hing,
                          hisucc, hires]⟩
        | status st =>
          exact ⟨(poll_import_until_complete ⟨env.poll⟩ st).2,
            by simp [upload_to_d1, hemp, hscript, hini, hsucc, hres]⟩

/-- C2: the orchestrator's upload step splits the batch into fixed-size
chunks of 1000 records — every chunk nonempty, at most 1000 records, all but
the last exactly 1000, concatenating back to the batch in order — and runs
one fully independent `upload_to_d1` per chunk, each beginning with an init
request carrying that chunk's own checksum. -/
theorem c2_orchestrator_chunked_upload (envs : Nat → D1Env) (batch : List PdaSqlite) :
    UPLOAD_CHUNK_SIZE = 1000
    ∧ (chunksOf UPLOAD_CHUNK_SIZE batch).flatten = batch
    ∧ (∀ c ∈ chunksOf UPLOAD_CHUNK_SIZE batch, c ≠ [] ∧ c.length ≤ UPLOAD_CHUNK_SIZE)
    ∧ (∀ i c, (chunksOf UPLOAD_CHUNK_SIZE batch).get? i = some c →
        i + 1 < (chunksOf UPLOAD_CHUNK_SIZE batch).length → c.length = UPLOAD_CHUNK_SIZE)
    ∧ (orchestratorUpload envs batch).length = (chunksOf UPLOAD_CHUNK_SIZE batch).length
    ∧ (∀ i c, (chunksOf UPLOAD_CHUNK_SIZE batch).get? i = some c →
        (orchestratorUpload envs batch).get? i = some (upload_to_d1 (envs i) c))
    ∧ (∀ i c script, (chunksOf UPLOAD_CHUNK_SIZE batch).get? i = some c →
        build_insert_script c = some script →
        ∃ rest, (upload_to_d1 (envs i) c).2
          = .initReq ((envs i).md5hex script) :: rest) := by
  have hpos : 0 < UPLOAD_CHUNK_SIZE := by decide
  refine ⟨rfl, chunksOf_flatten UPLOAD_CHUNK_SIZE hpos batch,
    fun c hc => chunksOf_mem UPLOAD_CHUNK_SIZE hpos batch c hc,
    fun i c hc hi => chunksOfFuel_get_length UPLOAD_CHUNK_SIZE hpos batch.length batch i c
      le_rfl hc hi,
    ?_, ?_, fun i c script hc hscript => upload_to_d1_trace_head (envs i) c script hscript⟩
  · simp [orchestratorUpload]
  · intro i c hc
    simp only [orchestratorUpload, List.get?_eq_getElem?, List.getElem?_mapIdx]
    rw [List.get?_eq_getElem?] at hc
    rw [hc]
    rfl

/-- Witness for C2 at a concrete one-record batch. -/
theorem c2_orchestrator_chunked_upload_witness :
    (chunksOf UPLOAD_CHUNK_SIZE demoEntries).flatten = demoEntries :=
  (c2_orchestrator_chunked_upload (fun _ => mismatchEnv) demoEntries).2.1

end PdaDirectory
